import Mathlib

/-!
Shallow embedding of the symptom-to-specialist classifier of this repository
(class `DoctorRecommender` in `add_doctor_column.py`): the text normalizer,
the symptom extractor, the combination checker, the per-category scorer and
the best-candidate selection, together with the hard-coded specialist rule
table.  Strings are modelled as `List Char` at the matching level; the rule
table keeps `String` fields as in the source.
-/

/-- Characters treated as whitespace by Python's `\s` / `str.strip()`
(ASCII subset). -/
def isWsChar (c : Char) : Bool :=
  c == ' ' || c == '\t' || c == '\n' || c == '\r' ||
    c == Char.ofNat 11 || c == Char.ofNat 12

/-- Characters stripped by `text.strip('"\'')`. -/
def isQuoteChar (c : Char) : Bool := c == '"' || c == '\''

/-- Collapse every maximal run of characters satisfying `p` into a single
space; `inRun` records whether the previous character was part of a run. -/
def collapseRunsAux (p : Char → Bool) (inRun : Bool) : List Char → List Char
  | [] => []
  | c :: cs =>
    if p c then
      if inRun then collapseRunsAux p true cs
      else ' ' :: collapseRunsAux p true cs
    else c :: collapseRunsAux p false cs

/-- Drop characters satisfying `p` from both ends (Python `str.strip`). -/
def stripEnds (p : Char → Bool) (l : List Char) : List Char :=
  ((l.dropWhile p).reverse.dropWhile p).reverse

/-- `DoctorRecommender.normalize_text`: lowercase, replace runs of
underscores by one space (`re.sub('[_]+', ' ', _)`), collapse whitespace
runs to one space (`re.sub('\s+', ' ', _)`), and strip. -/
def normalize_text (l : List Char) : List Char :=
  stripEnds isWsChar
    (collapseRunsAux isWsChar false
      (collapseRunsAux (fun c => c == '_') false (l.map Char.toLower)))

/-- `needle` is a prefix of the second list. -/
def startsWithL : List Char → List Char → Bool
  | [], _ => true
  | _ :: _, [] => false
  | x :: xs, y :: ys => x == y && startsWithL xs ys

/-- Python's substring test `needle in hay`. -/
def inStr (needle : List Char) : List Char → Bool
  | [] => startsWithL needle []
  | c :: t => startsWithL needle (c :: t) || inStr needle t

/-- One entry of the `specialist_rules` dictionary: category name, individual
symptom keywords, priority level, combined-symptom patterns, and whether the
combined symptoms are required (`required_combined`, defaulting to false in
the source via `rules.get('required_combined', False)`). -/
structure SpecialistRule where
  name : String
  symptoms : List String
  priority : Int
  combined : List (List String)
  requiredCombined : Bool
deriving DecidableEq

def cardiologist_rule : SpecialistRule :=
  ⟨"Cardiologist",
   ["chest_pain", "chest pain", "breathlessness",
    "palpitations", "irregular_heartbeat", "irregular heartbeat",
    "fast_heart_rate", "fast heart rate"],
   1,
   [["chest_pain", "breathlessness"],
    ["chest_pain", "sweating"],
    ["chest pain", "breathlessness"],
    ["chest pain", "sweating"],
    ["breathlessness", "sweating", "chest"]],
   true⟩

def neurologist_rule : SpecialistRule :=
  ⟨"Neurologist",
   ["headache", "altered_sensorium", "loss_of_balance",
    "spinning_movements", "dizziness", "seizures",
    "weakness_of_one_body_side", "unsteadiness",
    "slurred_speech", "coma", "altered sensorium",
    "loss of balance"],
   2,
   [["headache", "altered_sensorium"],
    ["weakness", "altered_sensorium"],
    ["spinning_movements", "loss_of_balance"]],
   false⟩

def pulmonologist_rule : SpecialistRule :=
  ⟨"Pulmonologist",
   ["cough", "mucoid_sputum", "rusty_sputum", "blood_in_sputum",
    "phlegm", "mucoid sputum", "rusty sputum", "blood in sputum",
    "mucus", "respiratory"],
   2,
   [["blood_in_sputum", "cough"],
    ["rusty_sputum", "cough"],
    ["phlegm", "cough"],
    ["breathlessness", "cough"],
    ["high_fever", "cough"]],
   false⟩

def gastroenterologist_rule : SpecialistRule :=
  ⟨"Gastroenterologist",
   ["vomiting", "diarrhea", "diarrhoea", "constipation",
    "abdominal_pain", "stomach_pain", "acidity", "indigestion",
    "bloody_stool", "loss_of_appetite", "nausea",
    "yellowing_of_eyes", "yellowish_skin", "dark_urine",
    "swelling_of_stomach", "distention_of_abdomen",
    "fluid_overload", "abdominal pain", "stomach pain",
    "bloody stool", "loss of appetite", "yellowing of eyes",
    "yellowish skin", "dark urine", "dehydration", "sunken_eyes",
    "history_of_alcohol_consumption", "acute_liver_failure",
    "stomach_bleeding", "pain_during_bowel_movements",
    "pain_in_anal_region", "irritation_in_anus", "ulcers_on_tongue"],
   4,
   [["vomiting", "diarrhea"],
    ["vomiting", "diarrhoea"],
    ["abdominal_pain", "vomiting"],
    ["stomach_pain", "acidity"],
    ["stomach_pain", "vomiting"],
    ["acidity", "chest_pain"]],
   false⟩

def dermatologist_rule : SpecialistRule :=
  ⟨"Dermatologist",
   ["skin_rash", "itching", "skin_discoloration",
    "pus_filled_pimples", "blackheads", "skin_peeling",
    "nodal_skin_eruptions", "dischromic__patches",
    "blister", "red_sore_around_nose", "yellow_crust_ooze",
    "scurring", "red_spots_over_body", "skin rash",
    "pus filled pimples", "skin peeling"],
   7,
   [],
   false⟩

def ent_rule : SpecialistRule :=
  ⟨"ENT",
   ["continuous_sneezing", "watering_from_eyes",
    "throat_irritation", "sinus_pressure", "runny_nose",
    "congestion", "loss_of_smell", "patches_in_throat",
    "shivering", "continuous sneezing", "watering from eyes",
    "throat irritation", "sinus pressure", "runny nose",
    "loss of smell", "patches in throat"],
   8,
   [["continuous_sneezing", "watering_from_eyes"]],
   false⟩

def orthopedic_rule : SpecialistRule :=
  ⟨"Orthopedic",
   ["joint_pain", "neck_pain", "knee_pain", "hip_pain",
    "stiff_neck", "muscle_weakness", "swelling_joints",
    "back_pain", "painful_walking", "muscle_wasting",
    "movement_stiffness", "joint pain", "neck pain",
    "knee pain", "hip pain", "stiff neck", "muscle weakness",
    "swelling joints", "back pain", "painful walking",
    "pain behind the eyes"],
   9,
   [],
   false⟩

def endocrinologist_rule : SpecialistRule :=
  ⟨"Endocrinologist",
   ["excessive_hunger", "polyuria", "increased_appetite",
    "irregular_sugar_level", "weight_gain", "cold_hands",
    "enlarged_thyroid", "obesity", "restlessness", "lethargy",
    "excessive hunger", "increased appetite",
    "irregular sugar level", "weight gain", "cold hands",
    "enlarged thyroid", "diabetes", "thyroid"],
   6,
   [["excessive_hunger", "polyuria"],
    ["excessive_hunger", "increased_appetite"],
    ["irregular_sugar_level", "polyuria"]],
   false⟩

def urologist_rule : SpecialistRule :=
  ⟨"Urologist",
   ["burning_micturition", "bladder_discomfort",
    "foul_smell_of_urine", "continuous_feel_of_urine",
    "burning micturition", "bladder discomfort",
    "foul smell of urine", "continuous feel of urine",
    "urine", "urinary", "kidney", "ureteral"],
   5,
   [["burning_micturition", "bladder_discomfort"]],
   false⟩

def gynecologist_rule : SpecialistRule :=
  ⟨"Gynecologist",
   ["abnormal_menstruation", "abnormal menstruation"],
   10,
   [],
   false⟩

def psychiatrist_rule : SpecialistRule :=
  ⟨"Psychiatrist",
   ["anxiety", "depression", "irritability"],
   11,
   [],
   false⟩

def general_physician_rule : SpecialistRule :=
  ⟨"General Physician",
   ["fever", "fatigue", "malaise", "weight_loss",
    "high_fever", "mild_fever", "chills",
    "weight loss", "high fever", "mild fever",
    "swelled_lymph_nodes", "muscle_pain", "weakness",
    "blurred_and_distorted_vision", "drying_and_tingling_lips",
    "extra_marital_contacts", "mood_swings"],
   12,
   [],
   false⟩

/-- The `self.specialist_rules` dictionary, in insertion order. -/
def specialist_rules : List SpecialistRule :=
  [cardiologist_rule, neurologist_rule, pulmonologist_rule,
   gastroenterologist_rule, dermatologist_rule, ent_rule,
   orthopedic_rule, endocrinologist_rule, urologist_rule,
   gynecologist_rule, psychiatrist_rule, general_physician_rule]

/-- Every individual keyword appearing in the rule table. -/
def allKeywords : List String :=
  specialist_rules.foldr (fun r acc => r.symptoms ++ acc) []

/-- `symptom.replace('_', ' ')`: the free-text search pattern of a keyword. -/
def patOf (kw : String) : List Char :=
  kw.data.map (fun c => if c == '_' then ' ' else c)

/-- Python's `text.split(',')` with an accumulator for the current piece. -/
def splitCommaAux (acc : List Char) : List Char → List (List Char)
  | [] => [acc.reverse]
  | c :: t =>
    if c == ',' then acc.reverse :: splitCommaAux [] t
    else splitCommaAux (c :: acc) t

/-- The free-text branch of `extract_symptoms`: scan the lowercased text for
each rule-table keyword's space-separated pattern, appending the matching
keywords (original spelling) in table order. -/
def freeScan (tl : List Char) : List String :=
  specialist_rules.foldl
    (fun acc r =>
      r.symptoms.foldl
        (fun acc2 kw => if inStr (patOf kw) tl then acc2 ++ [kw] else acc2)
        acc)
    []

/-- `DoctorRecommender.extract_symptoms`: strip surrounding quotes; for
comma-separated input without sentence punctuation, split on commas and
strip each piece; otherwise run the free-text keyword scan. -/
def extract_symptoms (text : String) : List String :=
  if (stripEnds isQuoteChar text.data).any (fun c => c == ',') &&
      !((stripEnds isQuoteChar text.data).any
          (fun c => c == '.' || c == '!' || c == '?')) then
    (splitCommaAux [] (stripEnds isQuoteChar text.data)).map
      (fun p => String.mk (stripEnds isWsChar p))
  else
    freeScan ((stripEnds isQuoteChar text.data).map Char.toLower)

/-- The matcher's substring test between a normalized keyword pattern and a
normalized extracted symptom (containment in either direction). -/
def symMatch (np ns : List Char) : Bool := inStr np ns || inStr ns np

/-- The extra score for the special high-priority respiratory keywords. -/
def boostFor (np : List Char) : Int :=
  if inStr ("blood in sputum".data) np || inStr ("rusty sputum".data) np
  then 150 else 0

/-- The inner loop of the individual-keyword scoring: walk the extracted
symptoms and, at the first one matching this keyword, add 10 (plus the
keyword's boost) and count one match, checking no further symptoms. -/
def scanSyms (np : List Char) : List (List Char) → Int × Nat
  | [] => (0, 0)
  | ns :: rest =>
    if symMatch np ns then (10 + boostFor np, 1) else scanSyms np rest

/-- The individual-keyword part of a category's score: fold the inner loop
over the category's keywords, accumulating score and match count. -/
def indiv_score (normSyms : List (List Char)) (pats : List String) : Int × Nat :=
  pats.foldl
    (fun acc kw =>
      let d := scanSyms (normalize_text kw.data) normSyms
      (acc.1 + d.1, acc.2 + d.2))
    (0, 0)

/-- `DoctorRecommender.has_combined_symptoms`: some combination pattern has
each of its members matched (substring containment, either direction,
normalized) by some extracted symptom. -/
def has_combined_symptoms (symptoms : List String) (combos : List (List String)) : Bool :=
  let normSyms := symptoms.map (fun s => normalize_text s.data)
  combos.any (fun combo =>
    combo.all (fun c =>
      let nc := normalize_text c.data
      normSyms.any (fun ns => inStr nc ns || inStr ns nc)))

/-- A category's raw (pre-priority) score and match count: 100 points and two
match counts for a satisfied combination, plus the individual-keyword part. -/
def rule_raw_score (normSyms : List (List Char)) (symptoms : List String)
    (r : SpecialistRule) : Int × Nat :=
  ((if has_combined_symptoms symptoms r.combined then (100 : Int) else 0) +
      (indiv_score normSyms r.symptoms).1,
   (if has_combined_symptoms symptoms r.combined then 2 else 0) +
      (indiv_score normSyms r.symptoms).2)

/-- One iteration of the matcher's scoring loop: `none` when the category is
disqualified (required combination missing) or matches nothing, otherwise the
recorded `(name, finalScore, matchCount)` with
`finalScore = score + 1000 - priority * 50`. -/
def ruleEntry (normSyms : List (List Char)) (symptoms : List String)
    (r : SpecialistRule) : Option (String × Int × Nat) :=
  if r.requiredCombined && !(has_combined_symptoms symptoms r.combined) then
    none
  else if 0 < (rule_raw_score normSyms symptoms r).2 then
    some (r.name,
      (rule_raw_score normSyms symptoms r).1 + (1000 - r.priority * 50),
      (rule_raw_score normSyms symptoms r).2)
  else none

/-- Python tuple comparison `a > b` on `(finalScore, matchCount)`. -/
def lexGtB (a b : Int × Nat) : Bool :=
  decide (b.1 < a.1) || (decide (a.1 = b.1) && decide (b.2 < a.2))

/-- Python's `max(items, key=...)`: keep the current best unless a later
element is strictly greater, so the first maximal element wins. -/
def pickBest (b : String × Int × Nat) :
    List (String × Int × Nat) → String × Int × Nat
  | [] => b
  | x :: xs => pickBest (if lexGtB x.2 b.2 then x else b) xs

/-- The `specialist_scores` entries recorded by the matcher, in rule-table
order. -/
def candidatesOf (symptoms : List String) : List (String × Int × Nat) :=
  specialist_rules.filterMap
    (ruleEntry (symptoms.map (fun s => normalize_text s.data)) symptoms)

/-- `DoctorRecommender.match_symptoms_to_specialist`. -/
def match_symptoms_to_specialist (symptoms : List String) : String :=
  if symptoms.isEmpty then "General Physician"
  else
    match candidatesOf symptoms with
    | [] => "General Physician"
    | e :: rest => (pickBest e rest).1

/-- `DoctorRecommender.recommend_doctor`, the classifier façade. -/
def recommend_doctor (text : String) : String :=
  match_symptoms_to_specialist (extract_symptoms text)

/-- The matcher's recorded candidates for a raw input. -/
def candidates_for (text : String) : List (String × Int × Nat) :=
  candidatesOf (extract_symptoms text)

/-- Strict lexicographic order on `(finalScore, matchCount)` pairs. -/
def lexLt (a b : Int × Nat) : Prop :=
  a.1 < b.1 ∨ (a.1 = b.1 ∧ a.2 < b.2)

/-- Weak lexicographic order on `(finalScore, matchCount)` pairs. -/
def lexLe (a b : Int × Nat) : Prop :=
  a.1 < b.1 ∨ (a.1 = b.1 ∧ a.2 ≤ b.2)

/-- Direct-recursion description of splitting a character list at commas,
keeping empty pieces (the semantics of Python's `split(',')`). -/
def splitAtCommas : List Char → List (List Char)
  | [] => [[]]
  | c :: t =>
    if c == ',' then [] :: splitAtCommas t
    else
      match splitAtCommas t with
      | [] => [[c]]
      | p :: ps => (c :: p) :: ps

/-- Remove a single leading quote character, if present. -/
def dropLeadQuote : List Char → List Char
  | [] => []
  | c :: t => if isQuoteChar c then t else c :: t

/-- Remove one layer of surrounding quote characters (at most one from each
end), as the spec's Symptom Extractor describes. -/
def stripOneLayer (l : List Char) : List Char :=
  (dropLeadQuote (dropLeadQuote l).reverse).reverse

/-- The structured-input extraction exactly as the spec's words describe it:
strip one layer of surrounding quotes, split on commas, trim each piece of
surrounding whitespace, and drop empty pieces. -/
def spec_comma_pieces (t : String) : List String :=
  (((splitAtCommas (stripOneLayer t.data)).map
      (fun p => stripEnds isWsChar p)).filter
    (fun p => !p.isEmpty)).map (fun p => String.mk p)

/-- Python's single-character `str.replace(a, b)`. -/
def replAll (a b : Char) (s : String) : String :=
  String.mk (s.data.map (fun c => if c == a then b else c))

/-- Modelled from the spec: construction-time validation of the RuleTable.
The source constructors (`DoctorRecommender.__init__`,
`SymptomDoctorMapper.__init__`) hard-code literal rule tables and contain no
validation code, so the configuration checks of spec section 7 — duplicate
category name, non-positive `priority`, empty `requiredCombinations` entry —
are modelled here from the spec's words. -/
def validate_rule_table (rt : List SpecialistRule) : Except String Unit :=
  if ¬ (rt.map (fun r => r.name)).Nodup then
    Except.error "duplicate category name"
  else if rt.any (fun r => decide (r.priority ≤ 0)) then
    Except.error "non-positive priority"
  else if rt.any (fun r => r.combined.any (fun combo => combo.isEmpty)) then
    Except.error "empty requiredCombinations entry"
  else Except.ok ()

/-! ### Helper lemmas -/

theorem lexLe_refl (a : Int × Nat) : lexLe a a := Or.inr ⟨rfl, le_refl _⟩

theorem lexLe_of_lexLt {a b : Int × Nat} (h : lexLt a b) : lexLe a b := by
  rcases h with h | ⟨h1, h2⟩
  · exact Or.inl h
  · exact Or.inr ⟨h1, le_of_lt h2⟩

theorem lexLt_of_lexLt_of_lexLe {a b c : Int × Nat}
    (h1 : lexLt a b) (h2 : lexLe b c) : lexLt a c := by
  rcases h1 with h1 | ⟨h1a, h1b⟩ <;> rcases h2 with h2 | ⟨h2a, h2b⟩
  · exact Or.inl (lt_trans h1 h2)
  · exact Or.inl (h2a ▸ h1)
  · exact Or.inl (h1a ▸ h2)
  · exact Or.inr ⟨h1a.trans h2a, lt_of_lt_of_le h1b h2b⟩

theorem lexLt_of_lexLe_of_lexLt {a b c : Int × Nat}
    (h1 : lexLe a b) (h2 : lexLt b c) : lexLt a c := by
  rcases h1 with h1 | ⟨h1a, h1b⟩ <;> rcases h2 with h2 | ⟨h2a, h2b⟩
  · exact Or.inl (lt_trans h1 h2)
  · exact Or.inl (h2a ▸ h1)
  · exact Or.inl (h1a ▸ h2)
  · exact Or.inr ⟨h1a.trans h2a, lt_of_le_of_lt h1b h2b⟩

theorem lexLe_of_gtB_false {x b : Int × Nat} (h : lexGtB x b = false) :
    lexLe x b := by
  unfold lexGtB at h
  simp only [Bool.or_eq_false_iff, Bool.and_eq_false_iff,
    decide_eq_false_iff_not] at h
  rcases lt_trichotomy x.1 b.1 with h1 | h1 | h1
  · exact Or.inl h1
  · rcases h.2 with h2 | h2
    · exact absurd h1 h2
    · exact Or.inr ⟨h1, le_of_not_lt h2⟩
  · exact absurd h1 h.1

theorem lexLt_of_gtB_true {x b : Int × Nat} (h : lexGtB x b = true) :
    lexLt b x := by
  unfold lexGtB at h
  simp only [Bool.or_eq_true, Bool.and_eq_true, decide_eq_true_eq] at h
  rcases h with h | ⟨h1, h2⟩
  · exact Or.inl h
  · exact Or.inr ⟨h1.symm, h2⟩

theorem pick_spec :
    ∀ (xs : List (String × Int × Nat)) (b : String × Int × Nat),
    ∃ l1 l2, b :: xs = l1 ++ pickBest b xs :: l2 ∧
      (∀ y ∈ b :: xs, lexLe y.2 (pickBest b xs).2) ∧
      (∀ y ∈ l1, lexLt y.2 (pickBest b xs).2) := by
  intro xs
  induction xs with
  | nil =>
    intro b
    refine ⟨[], [], rfl, ?_, ?_⟩
    · intro y hy
      simp only [List.mem_singleton] at hy
      subst hy
      exact lexLe_refl _
    · intro y hy
      cases hy
  | cons x rest ih =>
    intro b
    cases hgt : lexGtB x.2 b.2 with
    | true =>
      have hpb : pickBest b (x :: rest) = pickBest x rest := by
        simp [pickBest, hgt]
      obtain ⟨l1, l2, hsplit, hle, hlt⟩ := ih x
      have hbx : lexLt b.2 x.2 := lexLt_of_gtB_true hgt
      have hxm : lexLe x.2 (pickBest x rest).2 :=
        hle x (List.mem_cons_self _ _)
      refine ⟨b :: l1, l2, ?_, ?_, ?_⟩
      · rw [hpb, List.cons_append, ← hsplit]
      · intro y hy
        rw [hpb]
        rcases List.mem_cons.mp hy with rfl | hy
        · exact lexLe_of_lexLt (lexLt_of_lexLt_of_lexLe hbx hxm)
        · exact hle y hy
      · intro y hy
        rw [hpb]
        rcases List.mem_cons.mp hy with rfl | hy
        · exact lexLt_of_lexLt_of_lexLe hbx hxm
        · exact hlt y hy
    | false =>
      have hpb : pickBest b (x :: rest) = pickBest b rest := by
        simp [pickBest, hgt]
      obtain ⟨l1, l2, hsplit, hle, hlt⟩ := ih b
      have hxb : lexLe x.2 b.2 := lexLe_of_gtB_false hgt
      cases l1 with
      | nil =>
        simp only [List.nil_append] at hsplit
        have hb : b = pickBest b rest := (List.cons.injEq _ _ _ _ ▸ hsplit).1
        have hl2 : rest = l2 := (List.cons.injEq _ _ _ _ ▸ hsplit).2
        refine ⟨[], x :: l2, ?_, ?_, ?_⟩
        · rw [hpb, List.nil_append, ← hb, hl2]
        · intro y hy
          rw [hpb]
          rcases List.mem_cons.mp hy with rfl | hy
          · exact hb ▸ lexLe_refl _
          · rcases List.mem_cons.mp hy with rfl | hy
            · exact hb ▸ hxb
            · exact hle y (List.mem_cons_of_mem _ hy)
        · intro y hy
          cases hy
      | cons a l1t =>
        simp only [List.cons_append] at hsplit
        have hba : b = a := (List.cons.injEq _ _ _ _ ▸ hsplit).1
        have hrest : rest = l1t ++ pickBest b rest :: l2 :=
          (List.cons.injEq _ _ _ _ ▸ hsplit).2
        have hbm : lexLt b.2 (pickBest b rest).2 := by
          apply hlt b
          rw [hba]
          exact List.mem_cons_self _ _
        refine ⟨b :: x :: l1t, l2, ?_, ?_, ?_⟩
        · rw [hpb]
          simp only [List.cons_append]
          rw [← hrest]
        · intro y hy
          rw [hpb]
          rcases List.mem_cons.mp hy with rfl | hy
          · exact hle y (List.mem_cons_self _ _)
          · rcases List.mem_cons.mp hy with rfl | hy
            · exact lexLe_of_lexLt (lexLt_of_lexLe_of_lexLt hxb hbm)
            · exact hle y (List.mem_cons_of_mem _ hy)
        · intro y hy
          rw [hpb]
          rcases List.mem_cons.mp hy with rfl | hy
          · exact hbm
          · rcases List.mem_cons.mp hy with rfl | hy
            · exact lexLt_of_lexLe_of_lexLt hxb hbm
            · exact hlt y (List.mem_cons_of_mem _ hy)

theorem pickBest_mem (xs : List (String × Int × Nat)) (b : String × Int × Nat) :
    pickBest b xs ∈ b :: xs := by
  obtain ⟨l1, l2, hsplit, -, -⟩ := pick_spec xs b
  rw [hsplit]
  exact List.mem_append_right _ (List.mem_cons_self _ _)

theorem ruleEntry_some_eq {normSyms : List (List Char)} {symptoms : List String}
    {r : SpecialistRule} {e : String × Int × Nat}
    (h : ruleEntry normSyms symptoms r = some e) :
    e = (r.name,
      (rule_raw_score normSyms symptoms r).1 + (1000 - r.priority * 50),
      (rule_raw_score normSyms symptoms r).2) := by
  unfold ruleEntry at h
  split at h
  · exact absurd h (by simp)
  · split at h
    · exact (Option.some.inj h).symm
    · exact absurd h (by simp)

theorem result_mem_names (symptoms : List String) :
    match_symptoms_to_specialist symptoms ∈
      specialist_rules.map (fun r => r.name) := by
  unfold match_symptoms_to_specialist
  split
  · decide
  · split
    · decide
    · next e rest heq =>
      have hmem : pickBest e rest ∈ candidatesOf symptoms := by
        rw [heq]
        exact pickBest_mem rest e
      unfold candidatesOf at hmem
      obtain ⟨r, hr, hsome⟩ := List.mem_filterMap.mp hmem
      have hname : (pickBest e rest).1 = r.name := by
        rw [ruleEntry_some_eq hsome]
      rw [hname]
      exact List.mem_map.mpr ⟨r, hr, rfl⟩

theorem startsWithL_all {P : Char → Prop} :
    ∀ (n h : List Char), startsWithL n h = true →
      (∀ c ∈ h, P c) → ∀ c ∈ n, P c := by
  intro n
  induction n with
  | nil =>
    intro h _ _ c hc
    cases hc
  | cons a n' ih =>
    intro h hs hP c hc
    cases h with
    | nil => exact absurd hs (by simp [startsWithL])
    | cons b h' =>
      simp only [startsWithL, Bool.and_eq_true, beq_iff_eq] at hs
      rcases List.mem_cons.mp hc with rfl | hc
      · exact hs.1 ▸ hP b (List.mem_cons_self _ _)
      · exact ih h' hs.2 (fun d hd => hP d (List.mem_cons_of_mem _ hd)) c hc

theorem inStr_all {P : Char → Prop} :
    ∀ (hay needle : List Char), inStr needle hay = true →
      (∀ c ∈ hay, P c) → ∀ c ∈ needle, P c := by
  intro hay
  induction hay with
  | nil =>
    intro needle hin hP c hc
    cases needle with
    | nil => cases hc
    | cons a n' => exact absurd hin (by simp [inStr, startsWithL])
  | cons b t ih =>
    intro needle hin hP c hc
    simp only [inStr, Bool.or_eq_true] at hin
    rcases hin with hin | hin
    · exact startsWithL_all needle (b :: t) hin hP c hc
    · exact ih needle hin (fun d hd => hP d (List.mem_cons_of_mem _ hd)) c hc

theorem dropWhile_subset {p : Char → Bool} :
    ∀ (l : List Char) (c : Char), c ∈ l.dropWhile p → c ∈ l := by
  intro l
  induction l with
  | nil =>
    intro c hc
    exact hc
  | cons a t ih =>
    intro c hc
    rw [List.dropWhile_cons] at hc
    split at hc
    · exact List.mem_cons_of_mem _ (ih c hc)
    · exact hc

theorem stripEnds_subset {p : Char → Bool} (l : List Char) (c : Char)
    (hc : c ∈ stripEnds p l) : c ∈ l := by
  unfold stripEnds at hc
  rw [List.mem_reverse] at hc
  have h1 := dropWhile_subset _ _ hc
  rw [List.mem_reverse] at h1
  exact dropWhile_subset _ _ h1

theorem ws_toLower {c : Char} (h : isWsChar c = true) : c.toLower = c := by
  unfold isWsChar at h
  simp only [Bool.or_eq_true, beq_iff_eq] at h
  rcases h with ((((rfl | rfl) | rfl) | rfl) | rfl) | rfl <;> decide

theorem foldl_keywords_id {tl : List Char} :
    ∀ (pats : List String) (acc : List String),
      (∀ kw ∈ pats, inStr (patOf kw) tl = false) →
      pats.foldl
        (fun acc2 kw => if inStr (patOf kw) tl then acc2 ++ [kw] else acc2)
        acc = acc := by
  intro pats
  induction pats with
  | nil =>
    intro acc _
    rfl
  | cons kw pats' ih =>
    intro acc h
    rw [List.foldl_cons, if_neg]
    · exact ih acc (fun k hk => h k (List.mem_cons_of_mem _ hk))
    · rw [h kw (List.mem_cons_self _ _)]
      simp

theorem freeScan_nil {tl : List Char}
    (h : ∀ r ∈ specialist_rules, ∀ kw ∈ r.symptoms, inStr (patOf kw) tl = false) :
    freeScan tl = [] := by
  unfold freeScan
  have haux :
      ∀ (rules : List SpecialistRule) (acc : List String),
        (∀ r ∈ rules, ∀ kw ∈ r.symptoms, inStr (patOf kw) tl = false) →
        rules.foldl
          (fun acc r =>
            r.symptoms.foldl
              (fun acc2 kw =>
                if inStr (patOf kw) tl then acc2 ++ [kw] else acc2)
              acc)
          acc = acc := by
    intro rules
    induction rules with
    | nil =>
      intro acc _
      rfl
    | cons r rules' ih =>
      intro acc hh
      rw [List.foldl_cons, foldl_keywords_id _ _ (hh r (List.mem_cons_self _ _))]
      exact ih acc (fun r' hr' => hh r' (List.mem_cons_of_mem _ hr'))
  exact haux specialist_rules [] h

theorem keyword_pattern_not_ws :
    ∀ r ∈ specialist_rules, ∀ kw ∈ r.symptoms,
      (patOf kw).any (fun c => !isWsChar c) = true := by
  decide

theorem ws_extract_nil {t : String}
    (hws : ∀ c ∈ t.data, isWsChar c = true) : extract_symptoms t = [] := by
  have hstrip : ∀ c ∈ stripEnds isQuoteChar t.data, isWsChar c = true :=
    fun c hc => hws c (stripEnds_subset _ _ hc)
  have hcomma : (stripEnds isQuoteChar t.data).any (fun c => c == ',') = false := by
    rw [Bool.eq_false_iff]
    intro habs
    obtain ⟨c, hc, hcc⟩ := List.any_eq_true.mp habs
    rw [beq_iff_eq] at hcc
    subst hcc
    exact absurd (hstrip _ hc) (by decide)
  have htl : ∀ c ∈ (stripEnds isQuoteChar t.data).map Char.toLower,
      isWsChar c = true := by
    intro c hc
    obtain ⟨d, hd, rfl⟩ := List.mem_map.mp hc
    rw [ws_toLower (hstrip d hd)]
    exact hstrip d hd
  unfold extract_symptoms
  rw [hcomma]
  simp only [Bool.false_and, if_neg (by simp : ¬ (false = true))]
  apply freeScan_nil
  intro r hr kw hkw
  rw [Bool.eq_false_iff]
  intro habs
  obtain ⟨c, hc, hcc⟩ :=
    List.any_eq_true.mp (keyword_pattern_not_ws r hr kw hkw)
  rw [Bool.not_eq_true'] at hcc
  exact absurd (inStr_all _ _ habs htl c hc) (by rw [hcc]; simp)

theorem splitAtCommas_ne_nil : ∀ l : List Char, splitAtCommas l ≠ [] := by
  intro l
  cases l with
  | nil => simp [splitAtCommas]
  | cons c t =>
    unfold splitAtCommas
    split
    · simp
    · split <;> simp

theorem splitCommaAux_eq :
    ∀ (l : List Char) (acc : List Char),
      splitCommaAux acc l =
        match splitAtCommas l with
        | [] => [acc.reverse]
        | p :: ps => (acc.reverse ++ p) :: ps := by
  intro l
  induction l with
  | nil =>
    intro acc
    simp [splitCommaAux, splitAtCommas]
  | cons c t ih =>
    intro acc
    unfold splitCommaAux splitAtCommas
    split
    · next hc =>
      rw [ih []]
      cases hsp : splitAtCommas t with
      | nil => exact absurd hsp (splitAtCommas_ne_nil t)
      | cons p ps => simp
    · next hc =>
      rw [ih (c :: acc)]
      cases hsp : splitAtCommas t with
      | nil => exact absurd hsp (splitAtCommas_ne_nil t)
      | cons p ps => simp

theorem splitCommaAux_nilAcc (l : List Char) :
    splitCommaAux [] l = splitAtCommas l := by
  rw [splitCommaAux_eq]
  cases hsp : splitAtCommas l with
  | nil => exact absurd hsp (splitAtCommas_ne_nil l)
  | cons p ps => simp

theorem map_id_of_fixed {f : Char → Char} :
    ∀ l : List Char, (∀ c ∈ l, f c = c) → l.map f = l := by
  intro l
  induction l with
  | nil =>
    intro _
    rfl
  | cons c t ih =>
    intro h
    rw [List.map_cons, h c (List.mem_cons_self _ _),
      ih (fun d hd => h d (List.mem_cons_of_mem _ hd))]

/-! ### Claim theorems -/

/-- C1: worked examples of the reference rule table, evaluated on the code.
`recommend_doctor` maps `"chest_pain, breathlessness"` to `"Cardiologist"`,
`"joint_pain, stiff_neck"` to `"Orthopedic"` and `"cough, mucoid_sputum"` to
`"Pulmonologist"` as the claim states, but `"abnormal_menstruation"` yields
`"General Physician"`, not the claimed `"Gynecologist"`: the free-text
extractor compares space-separated keyword patterns against the lowercased
input without underscore normalization, so no symptom is extracted. -/
theorem C1_worked_examples :
    recommend_doctor "chest_pain, breathlessness" = "Cardiologist" ∧
    recommend_doctor "joint_pain, stiff_neck" = "Orthopedic" ∧
    recommend_doctor "cough, mucoid_sputum" = "Pulmonologist" ∧
    recommend_doctor "abnormal_menstruation" = "General Physician" ∧
    extract_symptoms "abnormal_menstruation" = [] := by
  refine ⟨by decide, by decide, by decide, by decide, by decide⟩

/-- C10: because the Cardiologist keyword list contains both `"chest_pain"`
and `"chest pain"`, which normalize to the same string, the single extracted
symptom `"chest_pain"` contributes the per-keyword increment twice: the
individual-keyword scoring yields score 20 and match count 2. -/
theorem C10_duplicate_spelling_double_count :
    indiv_score [normalize_text "chest_pain".data] cardiologist_rule.symptoms =
      (20, 2) ∧
    normalize_text "chest_pain".data = normalize_text "chest pain".data ∧
    "chest_pain" ∈ cardiologist_rule.symptoms ∧
    "chest pain" ∈ cardiologist_rule.symptoms := by
  refine ⟨by decide, by decide, by decide, by decide⟩

/-- C4 counterexample: on input
`"chest_pain, breathlessness, blood_in_sputum, cough"` both Cardiologist
(priority 1) and Pulmonologist (priority 2) are candidates with equal match
count 5, yet Cardiologist's final score 1080 is smaller than Pulmonologist's
1330 (the boosted sputum keywords outweigh the priority weight), so the
lower priority number does score worse. -/
theorem C4_counterexample :
    ("Cardiologist", (1080 : Int), (5 : Nat)) ∈
      candidates_for "chest_pain, breathlessness, blood_in_sputum, cough" ∧
    ("Pulmonologist", (1330 : Int), (5 : Nat)) ∈
      candidates_for "chest_pain, breathlessness, blood_in_sputum, cough" ∧
    cardiologist_rule.priority < pulmonologist_rule.priority ∧
    (1080 : Int) < 1330 := by
  refine ⟨by decide, by decide, by decide, by decide⟩

/-- C4 (amended): for two rule-table categories that both record a
MatchResult, if the first has the lower priority number and their raw
(pre-priority) scores are equal, then the first's final score is strictly
greater: the additive priority weight `1000 - priority * 50` alone decides. -/
theorem C4_amended_priority_weight :
    ∀ (normSyms : List (List Char)) (symptoms : List String)
      (r1 r2 : SpecialistRule) (e1 e2 : String × Int × Nat),
      r1 ∈ specialist_rules → r2 ∈ specialist_rules →
      ruleEntry normSyms symptoms r1 = some e1 →
      ruleEntry normSyms symptoms r2 = some e2 →
      r1.priority < r2.priority →
      (rule_raw_score normSyms symptoms r1).1 =
        (rule_raw_score normSyms symptoms r2).1 →
      e2.2.1 < e1.2.1 := by
  intro ns ss r1 r2 e1 e2 _ _ h1 h2 hp hraw
  obtain rfl := ruleEntry_some_eq h1
  obtain rfl := ruleEntry_some_eq h2
  change (rule_raw_score ns ss r2).1 + (1000 - r2.priority * 50) <
    (rule_raw_score ns ss r1).1 + (1000 - r1.priority * 50)
  omega

/-- C4 witness: concrete instantiation of the amended claim at the input
`["cough", "vomiting"]` with Pulmonologist (priority 2) and
Gastroenterologist (priority 4), which have equal raw score 10. -/
theorem C4_amended_priority_weight_witness :
    pulmonologist_rule ∈ specialist_rules ∧
    gastroenterologist_rule ∈ specialist_rules ∧
    ruleEntry (["cough", "vomiting"].map (fun s => normalize_text s.data))
        ["cough", "vomiting"] pulmonologist_rule =
      some ("Pulmonologist", 910, 1) ∧
    ruleEntry (["cough", "vomiting"].map (fun s => normalize_text s.data))
        ["cough", "vomiting"] gastroenterologist_rule =
      some ("Gastroenterologist", 810, 1) ∧
    pulmonologist_rule.priority < gastroenterologist_rule.priority ∧
    (rule_raw_score (["cough", "vomiting"].map (fun s => normalize_text s.data))
        ["cough", "vomiting"] pulmonologist_rule).1 =
      (rule_raw_score (["cough", "vomiting"].map (fun s => normalize_text s.data))
        ["cough", "vomiting"] gastroenterologist_rule).1 ∧
    (("Gastroenterologist", (810 : Int), (1 : Nat)) :
        String × Int × Nat).2.1 <
      (("Pulmonologist", (910 : Int), (1 : Nat)) : String × Int × Nat).2.1 :=
  ⟨by decide, by decide, by decide, by decide, by decide, by decide,
   C4_amended_priority_weight
     (["cough", "vomiting"].map (fun s => normalize_text s.data))
     ["cough", "vomiting"] pulmonologist_rule gastroenterologist_rule
     ("Pulmonologist", 910, 1) ("Gastroenterologist", 810, 1)
     (by decide) (by decide) (by decide) (by decide) (by decide) (by decide)⟩

/-- C5 counterexample: for the table keyword `"blood_in_sputum"`, the
underscore spelling classifies to the fallback `"General Physician"` (the
free-text scan finds no space-separated pattern inside it) while the space
spelling classifies to `"Pulmonologist"`, so the claimed normalization
equivalence fails. -/
theorem C5_counterexample :
    "blood_in_sputum" ∈ allKeywords ∧
    replAll ' ' '_' "blood_in_sputum" = "blood_in_sputum" ∧
    replAll '_' ' ' "blood_in_sputum" = "blood in sputum" ∧
    recommend_doctor "blood_in_sputum" = "General Physician" ∧
    recommend_doctor "blood in sputum" = "Pulmonologist" ∧
    ("General Physician" : String) ≠ "Pulmonologist" := by
  refine ⟨by decide, by decide, by decide, by decide, by decide, by decide⟩

/-- C5 (amended): for every keyword of the rule table that contains neither
an underscore nor a space, replacing spaces by underscores and underscores by
spaces both leave the keyword unchanged, so the two classifications agree. -/
theorem C5_amended_single_word :
    ∀ K : String, K ∈ allKeywords →
      (∀ c ∈ K.data, ¬(c = '_' ∨ c = ' ')) →
      recommend_doctor (replAll ' ' '_' K) =
        recommend_doctor (replAll '_' ' ' K) := by
  intro K _ hc
  have h1 : replAll ' ' '_' K = K := by
    unfold replAll
    rw [map_id_of_fixed]
    intro c hcc
    have hcs : (c == ' ') = false := by
      rw [beq_eq_false_iff_ne]
      exact fun h => hc c hcc (Or.inr h)
    simp [hcs]
  have h2 : replAll '_' ' ' K = K := by
    unfold replAll
    rw [map_id_of_fixed]
    intro c hcc
    have hcs : (c == '_') = false := by
      rw [beq_eq_false_iff_ne]
      exact fun h => hc c hcc (Or.inl h)
    simp [hcs]
  rw [h1, h2]

/-- C5 witness: the amended claim applied to the single-word keyword
`"cough"`. -/
theorem C5_amended_single_word_witness :
    "cough" ∈ allKeywords ∧
    (∀ c ∈ ("cough" : String).data, ¬(c = '_' ∨ c = ' ')) ∧
    recommend_doctor (replAll ' ' '_' "cough") =
      recommend_doctor (replAll '_' ' ' "cough") :=
  ⟨by decide, by decide,
   C5_amended_single_word "cough" (by decide) (by decide)⟩

/-- C2: for every input whose extracted symptoms match at least one
individual keyword of a rule-table category with `required_combined = true`
but satisfy none of its combined-symptom patterns, the classifier never
returns that category. -/
theorem C2_must_have_combination_exclusion :
    ∀ (t : String) (r : SpecialistRule), r ∈ specialist_rules →
      r.requiredCombined = true →
      has_combined_symptoms (extract_symptoms t) r.combined = false →
      (∃ kw ∈ r.symptoms, (extract_symptoms t).any
          (fun s => symMatch (normalize_text kw.data) (normalize_text s.data)) =
        true) →
      recommend_doctor t ≠ r.name := by
  intro t r hr hreq hnc _ habs
  have hrc : r = cardiologist_rule := by
    simp only [specialist_rules, List.mem_cons, List.not_mem_nil,
      or_false] at hr
    rcases hr with rfl | rfl | rfl | rfl | rfl | rfl | rfl | rfl | rfl | rfl
      | rfl | rfl
    · rfl
    all_goals exact absurd hreq (by decide)
  subst hrc
  unfold recommend_doctor match_symptoms_to_specialist at habs
  split at habs
  · exact absurd habs (by decide)
  · split at habs
    · exact absurd habs (by decide)
    · next e rest heq =>
      have hmem : pickBest e rest ∈ candidatesOf (extract_symptoms t) := by
        rw [heq]
        exact pickBest_mem rest e
      unfold candidatesOf at hmem
      obtain ⟨r', hr', hsome⟩ := List.mem_filterMap.mp hmem
      have hname : r'.name = "Cardiologist" := by
        rw [← (show (pickBest e rest).1 = r'.name by
          rw [ruleEntry_some_eq hsome]), habs]
        rfl
      have hr'c : r' = cardiologist_rule := by
        simp only [specialist_rules, List.mem_cons, List.not_mem_nil,
          or_false] at hr'
        rcases hr' with rfl | rfl | rfl | rfl | rfl | rfl | rfl | rfl | rfl
          | rfl | rfl | rfl
        · rfl
        all_goals exact absurd hname (by decide)
      subst hr'c
      unfold ruleEntry at hsome
      rw [hnc] at hsome
      simp only [show cardiologist_rule.requiredCombined = true from rfl,
        Bool.not_false, Bool.and_true, if_true] at hsome
      exact Option.noConfusion hsome

/-- C2 witness: the exclusion applied to the input `"chest_pain, fever"`,
whose extracted symptoms match Cardiologist keywords but satisfy no
Cardiologist combination. -/
theorem C2_must_have_combination_exclusion_witness :
    cardiologist_rule ∈ specialist_rules ∧
    cardiologist_rule.requiredCombined = true ∧
    has_combined_symptoms (extract_symptoms "chest_pain, fever")
      cardiologist_rule.combined = false ∧
    (∃ kw ∈ cardiologist_rule.symptoms,
      (extract_symptoms "chest_pain, fever").any
        (fun s => symMatch (normalize_text kw.data) (normalize_text s.data)) =
      true) ∧
    recommend_doctor "chest_pain, fever" ≠ cardiologist_rule.name :=
  ⟨by decide, by decide, by decide, by decide,
   C2_must_have_combination_exclusion "chest_pain, fever" cardiologist_rule
     (by decide) (by decide) (by decide) (by decide)⟩

/-- C3: whenever at least one MatchResult is recorded, the classifier
returns the name of a recorded candidate whose `(finalScore, matchCount)`
pair is lexicographically greatest among all candidates, and every candidate
recorded earlier (in rule-table order) is lexicographically strictly
smaller, i.e. the first maximal candidate wins ties. -/
theorem C3_lexicographically_greatest_selection :
    ∀ t : String, candidates_for t ≠ [] →
      ∃ l1 l2 e, candidates_for t = l1 ++ e :: l2 ∧
        recommend_doctor t = e.1 ∧
        (∀ y ∈ candidates_for t, lexLe y.2 e.2) ∧
        (∀ y ∈ l1, lexLt y.2 e.2) := by
  intro t hne
  unfold candidates_for at hne ⊢
  cases hemp : (extract_symptoms t).isEmpty with
  | true =>
    exfalso
    apply hne
    rw [List.isEmpty_iff] at hemp
    rw [hemp]
    decide
  | false =>
    cases heq : candidatesOf (extract_symptoms t) with
    | nil => exact absurd heq hne
    | cons e rest =>
      have hr2 : recommend_doctor t = (pickBest e rest).1 := by
        unfold recommend_doctor match_symptoms_to_specialist
        rw [hemp, heq]
        rfl
      obtain ⟨l1, l2, hsplit, hle, hlt⟩ := pick_spec rest e
      exact ⟨l1, l2, pickBest e rest, hsplit, hr2, hle, hlt⟩

/-- C3 witness: the selection property at the input `"cough"`, which records
exactly one candidate. -/
theorem C3_lexicographically_greatest_selection_witness :
    candidates_for "cough" ≠ [] ∧
    (∃ l1 l2 e, candidates_for "cough" = l1 ++ e :: l2 ∧
      recommend_doctor "cough" = e.1 ∧
      (∀ y ∈ candidates_for "cough", lexLe y.2 e.2) ∧
      (∀ y ∈ l1, lexLt y.2 e.2)) :=
  ⟨by decide, C3_lexicographically_greatest_selection "cough" (by decide)⟩

/-- C6: the empty string, a whitespace-only string and unrecognizable text
all classify to the fallback `"General Physician"`; in general, every
whitespace-only input and every input from which no symptom is extracted
deterministically yields the fallback (classification is total and never
fails). -/
theorem C6_fallback_totality :
    recommend_doctor "" = "General Physician" ∧
    recommend_doctor "   " = "General Physician" ∧
    recommend_doctor "zzz_not_a_symptom" = "General Physician" ∧
    (∀ t : String,
      ((∀ c ∈ t.data, isWsChar c = true) ∨ extract_symptoms t = []) →
      recommend_doctor t = "General Physician") := by
  refine ⟨by decide, by decide, by decide, ?_⟩
  intro t ht
  have hnil : extract_symptoms t = [] := by
    rcases ht with ht | ht
    · exact ws_extract_nil ht
    · exact ht
  unfold recommend_doctor
  rw [hnil]
  rfl

/-- C6 witness: the general fallback clause applied to the whitespace-only
input `"\t"`. -/
theorem C6_fallback_totality_witness :
    (∀ c ∈ ("\t" : String).data, isWsChar c = true) ∧
    recommend_doctor "\t" = "General Physician" :=
  ⟨by decide, C6_fallback_totality.2.2.2 "\t" (Or.inl (by decide))⟩

/-- C7 counterexample: the input `""a,,b""` (two quote characters on each
side) satisfies the claim's hypothesis — after stripping one layer of
quotes it contains a comma and no sentence punctuation — but the extractor
returns `["a", "", "b"]` (it strips all quote layers and keeps empty
pieces), not the `["\"a", "b\""]` that the claim's description (one quote
layer stripped, empty pieces removed) produces. -/
theorem C7_counterexample :
    (stripOneLayer ("\"\"a,,b\"\"" : String).data).any (fun c => c == ',') =
      true ∧
    (stripOneLayer ("\"\"a,,b\"\"" : String).data).any
        (fun c => c == '.' || c == '!' || c == '?') = false ∧
    extract_symptoms "\"\"a,,b\"\"" = ["a", "", "b"] ∧
    spec_comma_pieces "\"\"a,,b\"\"" = ["\"a", "b\""] ∧
    (["a", "", "b"] : List String) ≠ ["\"a", "b\""] := by
  refine ⟨by decide, by decide, by decide, by decide, by decide⟩

/-- C7 (amended): for every input whose fully quote-stripped text contains a
comma and none of `.`, `!`, `?`, the extractor returns exactly the
comma-separated pieces of the stripped text, each trimmed of surrounding
whitespace, with empty pieces retained, order and duplicates preserved. -/
theorem C7_structured_extraction :
    ∀ t : String,
      (stripEnds isQuoteChar t.data).any (fun c => c == ',') = true →
      (stripEnds isQuoteChar t.data).any
          (fun c => c == '.' || c == '!' || c == '?') = false →
      extract_symptoms t =
        (splitAtCommas (stripEnds isQuoteChar t.data)).map
          (fun p => String.mk (stripEnds isWsChar p)) := by
  intro t h1 h2
  have hcond : ((stripEnds isQuoteChar t.data).any (fun c => c == ',') &&
      !((stripEnds isQuoteChar t.data).any
          (fun c => c == '.' || c == '!' || c == '?'))) = true := by
    rw [h1, h2]
    decide
  unfold extract_symptoms
  rw [if_pos hcond, splitCommaAux_nilAcc]

/-- C7 witness: the amended claim applied to the input `"a, b"`. -/
theorem C7_structured_extraction_witness :
    (stripEnds isQuoteChar ("a, b" : String).data).any (fun c => c == ',') =
      true ∧
    (stripEnds isQuoteChar ("a, b" : String).data).any
        (fun c => c == '.' || c == '!' || c == '?') = false ∧
    extract_symptoms "a, b" =
      (splitAtCommas (stripEnds isQuoteChar ("a, b" : String).data)).map
        (fun p => String.mk (stripEnds isWsChar p)) :=
  ⟨by decide, by decide,
   C7_structured_extraction "a, b" (by decide) (by decide)⟩

/-- C8: during scoring, one keyword contributes to score and match count at
most once: when the extracted symptoms split as `pre ++ s :: post` with no
match in `pre` and a match at `s`, the keyword's inner loop yields exactly
`(10 + boost, 1)` regardless of `post` (no further symptoms are checked),
and it yields `(0, 0)` when no extracted symptom matches. -/
theorem C8_keyword_contributes_once :
    (∀ (np : List Char) (pre post : List (List Char)) (s : List Char),
        (∀ y ∈ pre, symMatch np y = false) → symMatch np s = true →
        scanSyms np (pre ++ s :: post) = (10 + boostFor np, 1)) ∧
    (∀ (np : List Char) (syms : List (List Char)),
        (∀ y ∈ syms, symMatch np y = false) → scanSyms np syms = (0, 0)) := by
  constructor
  · intro np pre
    induction pre with
    | nil =>
      intro post s _ hs
      simp only [List.nil_append, scanSyms, hs, if_true]
    | cons y pre' ih =>
      intro post s hpre hs
      have hy : symMatch np y = false := hpre y (List.mem_cons_self _ _)
      simp only [List.cons_append, scanSyms, hy, Bool.false_eq_true, if_false]
      exact ih post s (fun z hz => hpre z (List.mem_cons_of_mem _ hz)) hs
  · intro np syms
    induction syms with
    | nil =>
      intro _
      rfl
    | cons y syms' ih =>
      intro h
      have hy : symMatch np y = false := h y (List.mem_cons_self _ _)
      simp only [scanSyms, hy, Bool.false_eq_true, if_false]
      exact ih (fun z hz => h z (List.mem_cons_of_mem _ hz))

/-- C8 witness: the keyword `"cough"` against the symptoms
`["fever", "cough", "cough"]` contributes `(10, 1)` once, with the duplicate
later match never examined. -/
theorem C8_keyword_contributes_once_witness :
    (∀ y ∈ [normalize_text "fever".data],
        symMatch (normalize_text "cough".data) y = false) ∧
    symMatch (normalize_text "cough".data) (normalize_text "cough".data) =
      true ∧
    scanSyms (normalize_text "cough".data)
        ([normalize_text "fever".data] ++
          normalize_text "cough".data :: [normalize_text "cough".data]) =
      (10 + boostFor (normalize_text "cough".data), 1) :=
  ⟨by decide, by decide,
   C8_keyword_contributes_once.1 (normalize_text "cough".data)
     [normalize_text "fever".data] [normalize_text "cough".data]
     (normalize_text "cough".data) (by decide) (by decide)⟩

/-- C9: the spec-modelled construction-time validation errs exactly when a
category name is duplicated, a priority is non-positive, or a
requiredCombinations entry is empty; the reference rule table passes it; and
classification never fails — it always returns a configured category name. -/
theorem C9_construction_validation :
    (∀ rt : List SpecialistRule,
      (∃ msg, validate_rule_table rt = Except.error msg) ↔
        (¬ (rt.map (fun r => r.name)).Nodup ∨
         (∃ r ∈ rt, r.priority ≤ 0) ∨
         (∃ r ∈ rt, [] ∈ r.combined))) ∧
    validate_rule_table specialist_rules = Except.ok () ∧
    (∀ t : String,
      recommend_doctor t ∈ specialist_rules.map (fun r => r.name)) := by
  refine ⟨?_, by rfl, fun t => result_mem_names (extract_symptoms t)⟩
  intro rt
  unfold validate_rule_table
  by_cases h1 : (rt.map (fun r => r.name)).Nodup
  · rw [if_neg (not_not_intro h1)]
    by_cases h2 : rt.any (fun r => decide (r.priority ≤ 0)) = true
    · rw [if_pos h2]
      constructor
      · intro _
        refine Or.inr (Or.inl ?_)
        obtain ⟨r, hr, hpr⟩ := List.any_eq_true.mp h2
        exact ⟨r, hr, of_decide_eq_true hpr⟩
      · intro _
        exact ⟨_, rfl⟩
    · rw [if_neg h2]
      by_cases h3 :
          rt.any (fun r => r.combined.any (fun combo => combo.isEmpty)) = true
      · rw [if_pos h3]
        constructor
        · intro _
          refine Or.inr (Or.inr ?_)
          obtain ⟨r, hr, hcr⟩ := List.any_eq_true.mp h3
          obtain ⟨combo, hcombo, hemp⟩ := List.any_eq_true.mp hcr
          rw [List.isEmpty_iff] at hemp
          exact ⟨r, hr, hemp ▸ hcombo⟩
        · intro _
          exact ⟨_, rfl⟩
      · rw [if_neg h3]
        constructor
        · rintro ⟨msg, habs⟩
          exact Except.noConfusion habs
        · rintro (hbad | ⟨r, hr, hbad⟩ | ⟨r, hr, hbad⟩)
          · exact absurd h1 hbad
          · exact absurd (List.any_eq_true.mpr
              ⟨r, hr, decide_eq_true hbad⟩) h2
          · exact absurd (List.any_eq_true.mpr
              ⟨r, hr, List.any_eq_true.mpr ⟨[], hbad, rfl⟩⟩) h3
  · rw [if_pos h1]
    constructor
    · intro _
      exact Or.inl h1
    · intro _
      exact ⟨_, rfl⟩

/-- C9 witness: the validation iff applied to a concrete one-rule table with
a non-positive priority, which is rejected. -/
theorem C9_construction_validation_witness :
    ∃ msg, validate_rule_table [⟨"X", [], 0, [], false⟩] =
      Except.error msg :=
  (C9_construction_validation.1 [⟨"X", [], 0, [], false⟩]).mpr
    (Or.inr (Or.inl ⟨⟨"X", [], 0, [], false⟩, by decide, by decide⟩))
